import Mathlib

/-!
Verification of the charger-uptime core (src/charger_uptime.py).

The embedding translates the four core functions of the source:
`get_station_reporting_period`, `merge_intervals`, `calculate_station_uptime`
and the fleet-evaluation part of `main` (here `evaluate_fleet`).
Python integers are modelled as `Int`; Python floor division `//` is
`Int.fdiv`; Python's stable sort on pairs of integers orders them
lexicographically, which is a total antisymmetric order, so the sorted
list is the unique sorted permutation of the input and `List.insertionSort`
with the lexicographic order produces exactly the same list.
-/

namespace ChargerUptime

/-- A charger availability report: the tuple
(charger_id, start_time, end_time, is_up) built by parse_input_file. -/
structure Report where
  charger_id : Int
  start_time : Int
  end_time : Int
  is_up : Bool
  deriving DecidableEq, Repr

/-- Lexicographic order on integer pairs: exactly the order Python's
list.sort() uses on 2-tuples of ints. -/
def pairLe (a b : Int × Int) : Prop :=
  a.1 < b.1 ∨ (a.1 = b.1 ∧ a.2 ≤ b.2)

instance : DecidableRel pairLe := fun a b => by
  unfold pairLe
  infer_instance

instance : IsTotal (Int × Int) pairLe :=
  ⟨fun a b => by unfold pairLe; omega⟩

instance : IsTrans (Int × Int) pairLe :=
  ⟨fun a b c hab hbc => by unfold pairLe at hab hbc ⊢; omega⟩

instance : IsAntisymm (Int × Int) pairLe :=
  ⟨fun a b h1 h2 => by
    unfold pairLe at h1 h2
    obtain ⟨x, y⟩ := a
    obtain ⟨z, w⟩ := b
    simp only [Prod.mk.injEq]
    simp only at h1 h2
    omega⟩

/-- One step of the accumulation loop of get_station_reporting_period:
update the running (min_start, max_end) pair with one report, ignoring
reports of chargers outside the station. -/
def period_step (charger_ids : List Int) (acc : Option Int × Option Int)
    (r : Report) : Option Int × Option Int :=
  if r.charger_id ∈ charger_ids then
    (some (match acc.1 with
      | none => r.start_time
      | some m => if r.start_time < m then r.start_time else m),
     some (match acc.2 with
      | none => r.end_time
      | some m => if r.end_time > m then r.end_time else m))
  else acc

/-- get_station_reporting_period from src/charger_uptime.py: fold the
min/max update over the report list; if no report matched, both
accumulators are still None and the (0, 0) sentinel is returned. -/
def get_station_reporting_period (station_id : Int) (charger_ids : List Int)
    (reports : List Report) : Int × Int :=
  match reports.foldl (period_step charger_ids) (none, none) with
  | (some a, some b) => (a, b)
  | _ => (0, 0)

/-- The merge scan of merge_intervals: walk the sorted tail keeping a
current merged interval; a next interval starting at or before the current
end extends the current end to the max of the two ends, otherwise the
current interval is emitted and the next one becomes current. -/
def mergeAux : Int × Int → List (Int × Int) → List (Int × Int)
  | cur, [] => [cur]
  | cur, c :: rest =>
    if c.1 ≤ cur.2 then mergeAux (cur.1, max cur.2 c.2) rest
    else cur :: mergeAux c rest

/-- Dispatch on the sorted list: empty input yields empty output, else the
head seeds the merge scan. -/
def mergeRun : List (Int × Int) → List (Int × Int)
  | [] => []
  | p :: rest => mergeAux p rest

/-- merge_intervals from src/charger_uptime.py: sort the intervals (Python
tuple sort = lexicographic) and scan, merging on the closed comparison
current_start ≤ last_end. -/
def merge_intervals (intervals : List (Int × Int)) : List (Int × Int) :=
  mergeRun (List.insertionSort pairLe intervals)

/-- The "up" intervals collected by calculate_station_uptime: reports of
the station's chargers with is_up true, as (start_time, end_time) pairs,
in report-list order. -/
def up_intervals (charger_ids : List Int) (reports : List Report) :
    List (Int × Int) :=
  (reports.filter (fun r => decide (r.charger_id ∈ charger_ids) && r.is_up)).map
    (fun r => (r.start_time, r.end_time))

/-- One step of the clipping/summing loop of calculate_station_uptime:
clip an interval to the reporting period and add its length if nonempty. -/
def clip_step (period_start period_end acc : Int) (p : Int × Int) : Int :=
  let clipped_start := max p.1 period_start
  let clipped_end := min p.2 period_end
  if clipped_start < clipped_end then acc + (clipped_end - clipped_start)
  else acc

/-- calculate_station_uptime from src/charger_uptime.py. Python's // is
floor division, Int.fdiv. -/
def calculate_station_uptime (station_id : Int) (charger_ids : List Int)
    (reports : List Report) : Int :=
  let period := get_station_reporting_period station_id charger_ids reports
  if period.1 = period.2 then 0
  else
    let total_period := period.2 - period.1
    let merged_up_intervals :=
      merge_intervals (up_intervals charger_ids reports)
    let total_uptime :=
      merged_up_intervals.foldl (clip_step period.1 period.2) 0
    Int.fdiv (total_uptime * 100) total_period

/-- The computational core of main from src/charger_uptime.py: one
(station_id, uptime) pair per station of the input mapping, then
results.sort() — Python tuple sort, lexicographic. -/
def evaluate_fleet (stations : List (Int × List Int)) (reports : List Report) :
    List (Int × Int) :=
  let results :=
    stations.map (fun s => (s.1, calculate_station_uptime s.1 s.2 reports))
  List.insertionSort pairLe results

/-- A point x lies in the union of a list of half-open intervals. -/
def memPt (x : Int) (l : List (Int × Int)) : Prop :=
  ∃ p ∈ l, p.1 ≤ x ∧ x < p.2

instance (x : Int) (l : List (Int × Int)) : Decidable (memPt x l) := by
  unfold memPt
  infer_instance

/-- Strict separation of two intervals: the first ends before the second
starts (touching intervals are NOT separated). -/
def sep (p q : Int × Int) : Prop := p.2 < q.1

instance : DecidableRel sep := fun p q => by
  unfold sep
  infer_instance

/-- Index of the first interval of the list containing the point. -/
def findCover (x : Int) : List (Int × Int) → Nat
  | [] => 0
  | p :: rest => if p.1 ≤ x ∧ x < p.2 then 0 else findCover x rest + 1

/-- The reports whose charger_id belongs to the station's charger set:
the reports that get_station_reporting_period aggregates over. -/
def station_reports (charger_ids : List Int) (reports : List Report) :
    List Report :=
  reports.filter (fun r => decide (r.charger_id ∈ charger_ids))

/-- Length of an interval clipped to the window [lo, hi), zero if the
clipped interval is empty: the contribution of one merged interval to
total_uptime. -/
def clipLen (lo hi : Int) (p : Int × Int) : Int :=
  max (min p.2 hi - max p.1 lo) 0

/-- Sum of clipped durations of a list of intervals: the total_up of the
specification. -/
def clipped_total (lo hi : Int) (l : List (Int × Int)) : Int :=
  (l.map (clipLen lo hi)).sum

/-- The no-clipping variant of calculate_station_uptime: sums the merged
up-interval lengths directly instead of clipping them to the window. -/
def calculate_station_uptime_noclip (station_id : Int) (charger_ids : List Int)
    (reports : List Report) : Int :=
  let period := get_station_reporting_period station_id charger_ids reports
  if period.1 = period.2 then 0
  else
    let total_period := period.2 - period.1
    let merged_up_intervals :=
      merge_intervals (up_intervals charger_ids reports)
    let total_uptime :=
      merged_up_intervals.foldl (fun acc p => acc + (p.2 - p.1)) 0
    Int.fdiv (total_uptime * 100) total_period

/-- pairLe orders first components weakly. -/
lemma pairLe_fst {p q : Int × Int} (h : pairLe p q) : p.1 ≤ q.1 := by
  unfold pairLe at h
  omega

/-- Membership of a point in the union of a cons list of intervals. -/
lemma memPt_cons {x : Int} {p : Int × Int} {l : List (Int × Int)} :
    memPt x (p :: l) ↔ (p.1 ≤ x ∧ x < p.2) ∨ memPt x l := by
  constructor
  · rintro ⟨q, hq, hx⟩
    rcases List.mem_cons.mp hq with h | h
    · exact Or.inl (h ▸ hx)
    · exact Or.inr ⟨q, h, hx⟩
  · rintro (h | ⟨q, hq, hx⟩)
    · exact ⟨p, List.mem_cons_self p l, h⟩
    · exact ⟨q, List.mem_cons_of_mem _ hq, hx⟩

/-- No point lies in the union of the empty list. -/
lemma memPt_nil {x : Int} : ¬ memPt x [] := by
  rintro ⟨q, hq, _⟩
  exact absurd hq (List.not_mem_nil q)

/-- Union membership is invariant under permutation of the interval list. -/
lemma memPt_perm {x : Int} {l l' : List (Int × Int)} (h : List.Perm l l') :
    memPt x l ↔ memPt x l' := by
  constructor
  · rintro ⟨q, hq, hx⟩
    exact ⟨q, h.mem_iff.mp hq, hx⟩
  · rintro ⟨q, hq, hx⟩
    exact ⟨q, h.mem_iff.mpr hq, hx⟩

/-- The merge scan preserves the union of points, provided the current
interval starts no later than any interval of the tail and the tail starts
are weakly sorted. -/
lemma mergeAux_memPt (x : Int) :
    ∀ (rest : List (Int × Int)) (cur : Int × Int),
      (∀ q ∈ rest, cur.1 ≤ q.1) →
      rest.Pairwise (fun p q => p.1 ≤ q.1) →
      (memPt x (mergeAux cur rest) ↔ memPt x (cur :: rest))
  | [], cur, _, _ => Iff.rfl
  | c :: rest, cur, hall, hpw => by
    simp only [mergeAux]
    by_cases hc : c.1 ≤ cur.2
    · rw [if_pos hc]
      have hcur1 : cur.1 ≤ c.1 := hall c (List.mem_cons_self c rest)
      have ih := mergeAux_memPt x rest (cur.1, max cur.2 c.2)
        (fun q hq => hall q (List.mem_cons_of_mem c hq)) hpw.of_cons
      simp only [memPt_cons] at ih ⊢
      rw [ih]
      have key : (cur.1 ≤ x ∧ x < max cur.2 c.2) ↔
          ((cur.1 ≤ x ∧ x < cur.2) ∨ (c.1 ≤ x ∧ x < c.2)) := by
        omega
      rw [key, or_assoc]
    · rw [if_neg hc]
      have ih := mergeAux_memPt x rest c
        (fun q hq => List.rel_of_pairwise_cons hpw hq) hpw.of_cons
      simp only [memPt_cons, ih]

/-- Structure of the merge scan on well-formed sorted input: the output
starts with an interval whose left end is the current start, every output
interval is nonempty, outputs are pairwise strictly separated, and all
output starts are at least the current start. -/
lemma mergeAux_canonical :
    ∀ (rest : List (Int × Int)) (cur : Int × Int),
      (∀ q ∈ rest, cur.1 ≤ q.1) →
      rest.Pairwise (fun p q => p.1 ≤ q.1) →
      cur.1 < cur.2 →
      (∀ q ∈ rest, q.1 < q.2) →
      (∃ e t, mergeAux cur rest = (cur.1, e) :: t) ∧
      (∀ p ∈ mergeAux cur rest, p.1 < p.2) ∧
      (mergeAux cur rest).Pairwise sep ∧
      (∀ p ∈ mergeAux cur rest, cur.1 ≤ p.1)
  | [], cur, _, _, hcur, _ => by
    refine ⟨⟨cur.2, [], rfl⟩, ?_, ?_, ?_⟩
    · intro p hp
      simp only [mergeAux, List.mem_singleton] at hp
      exact hp ▸ hcur
    · simp only [mergeAux]
      exact List.pairwise_singleton sep cur
    · intro p hp
      simp only [mergeAux, List.mem_singleton] at hp
      exact hp ▸ le_refl cur.1
  | c :: rest, cur, hall, hpw, hcur, hwf => by
    simp only [mergeAux]
    by_cases hc : c.1 ≤ cur.2
    · rw [if_pos hc]
      have ih := mergeAux_canonical rest (cur.1, max cur.2 c.2)
        (fun q hq => hall q (List.mem_cons_of_mem c hq)) hpw.of_cons
        (by simp only; omega)
        (fun q hq => hwf q (List.mem_cons_of_mem c hq))
      exact ih
    · rw [if_neg hc]
      have hcc : cur.1 ≤ c.1 := hall c (List.mem_cons_self c rest)
      have ih := mergeAux_canonical rest c
        (fun q hq => List.rel_of_pairwise_cons hpw hq) hpw.of_cons
        (hwf c (List.mem_cons_self c rest))
        (fun q hq => hwf q (List.mem_cons_of_mem c hq))
      obtain ⟨hhead, hwfo, hsepo, hstarts⟩ := ih
      refine ⟨⟨cur.2, mergeAux c rest, rfl⟩, ?_, ?_, ?_⟩
      · intro p hp
        rcases List.mem_cons.mp hp with h | h
        · exact h ▸ hcur
        · exact hwfo p h
      · refine List.pairwise_cons.mpr ⟨?_, hsepo⟩
        intro q hq
        have h1 : c.1 ≤ q.1 := hstarts q hq
        unfold sep
        omega
      · intro p hp
        rcases List.mem_cons.mp hp with h | h
        · exact h ▸ le_refl cur.1
        · exact le_trans hcc (hstarts p h)

/-- The sorted list has weakly increasing first components. -/
lemma sorted_pairwise_fst (l : List (Int × Int)) :
    (List.insertionSort pairLe l).Pairwise (fun p q => p.1 ≤ q.1) :=
  (List.sorted_insertionSort pairLe l).imp pairLe_fst

/-- merge_intervals preserves the union of points of its input. -/
lemma merge_intervals_memPt (l : List (Int × Int)) (x : Int) :
    memPt x (merge_intervals l) ↔ memPt x l := by
  unfold merge_intervals
  have hperm := List.perm_insertionSort pairLe l
  have hpw := sorted_pairwise_fst l
  cases h : List.insertionSort pairLe l with
  | nil =>
    rw [h] at hperm
    have hl : l = [] := hperm.symm.eq_nil
    subst hl
    exact Iff.rfl
  | cons p rest =>
    rw [h] at hperm hpw
    simp only [mergeRun]
    rw [mergeAux_memPt x rest p
      (fun q hq => List.rel_of_pairwise_cons hpw hq) hpw.of_cons]
    exact memPt_perm hperm

/-- On well-formed input, the output of merge_intervals consists of
nonempty intervals that are pairwise strictly separated. -/
lemma merge_intervals_canonical (l : List (Int × Int))
    (hwf : ∀ p ∈ l, p.1 < p.2) :
    (∀ p ∈ merge_intervals l, p.1 < p.2) ∧
    (merge_intervals l).Pairwise sep := by
  unfold merge_intervals
  have hperm := List.perm_insertionSort pairLe l
  have hpw := sorted_pairwise_fst l
  have hwfs : ∀ p ∈ List.insertionSort pairLe l, p.1 < p.2 :=
    fun p hp => hwf p (hperm.mem_iff.mp hp)
  cases h : List.insertionSort pairLe l with
  | nil =>
    exact ⟨fun p hp => absurd hp (List.not_mem_nil p), List.Pairwise.nil⟩
  | cons p rest =>
    rw [h] at hpw hwfs
    simp only [mergeRun]
    have hc := mergeAux_canonical rest p
      (fun q hq => List.rel_of_pairwise_cons hpw hq) hpw.of_cons
      (hwfs p (List.mem_cons_self p rest))
      (fun q hq => hwfs q (List.mem_cons_of_mem p hq))
    exact ⟨hc.2.1, hc.2.2.1⟩

/-- If every input interval lies inside [lo, hi], so does every merged
interval: merging never widens the covered range. -/
lemma merge_intervals_bounds (l : List (Int × Int))
    (hwf : ∀ p ∈ l, p.1 < p.2) (lo hi : Int)
    (hb : ∀ p ∈ l, lo ≤ p.1 ∧ p.2 ≤ hi) :
    ∀ p ∈ merge_intervals l, lo ≤ p.1 ∧ p.2 ≤ hi := by
  intro p hp
  have hwfm := (merge_intervals_canonical l hwf).1 p hp
  have h1 : memPt p.1 (merge_intervals l) := ⟨p, hp, le_refl _, hwfm⟩
  have h2 : memPt (p.2 - 1) (merge_intervals l) := ⟨p, hp, by omega, by omega⟩
  rw [merge_intervals_memPt] at h1 h2
  obtain ⟨q1, hq1, hx1⟩ := h1
  obtain ⟨q2, hq2, hx2⟩ := h2
  have hb1 := hb q1 hq1
  have hb2 := hb q2 hq2
  omega

/-- Sorting with the lexicographic order is permutation-invariant: the
sorted list is the unique pairLe-sorted permutation. -/
lemma insertionSort_perm_eq {l l' : List (Int × Int)}
    (h : List.Perm l l') :
    List.insertionSort pairLe l = List.insertionSort pairLe l' := by
  refine List.eq_of_perm_of_sorted ?_ (List.sorted_insertionSort pairLe l)
    (List.sorted_insertionSort pairLe l')
  exact ((List.perm_insertionSort pairLe l).trans h).trans
    (List.perm_insertionSort pairLe l').symm

/-- In-bounds getD returns a list member. -/
lemma getD_mem : ∀ (L : List (Int × Int)) (n : Nat), n < L.length →
    L.getD n (0, 0) ∈ L
  | p :: _, 0, _ => List.mem_cons_self p _
  | p :: rest, n + 1, h =>
    List.mem_cons_of_mem p
      (getD_mem rest n (Nat.lt_of_succ_lt_succ (by simpa using h)))

/-- findCover returns an in-bounds index of an interval containing the
point, whenever one exists. -/
lemma findCover_spec (x : Int) : ∀ (L : List (Int × Int)), memPt x L →
    findCover x L < L.length ∧
    (L.getD (findCover x L) (0, 0)).1 ≤ x ∧
    x < (L.getD (findCover x L) (0, 0)).2
  | [], h => absurd h memPt_nil
  | p :: rest, h => by
    simp only [findCover]
    by_cases hp : p.1 ≤ x ∧ x < p.2
    · rw [if_pos hp]
      simp only [List.getD_cons_zero, List.length_cons]
      exact ⟨Nat.succ_pos _, hp⟩
    · rw [if_neg hp]
      have h' : memPt x rest := by
        rcases memPt_cons.mp h with hx | hx
        · exact absurd hx hp
        · exact hx
      have ih := findCover_spec x rest h'
      simp only [List.getD_cons_succ, List.length_cons]
      exact ⟨Nat.succ_lt_succ ih.1, ih.2⟩

/-- In a canonical interval list (nonempty, pairwise strictly separated),
the right endpoint of any member interval lies outside the union. -/
lemma canonical_end_notMem (M : List (Int × Int))
    (hwf : ∀ p ∈ M, p.1 < p.2) (hsep : M.Pairwise sep)
    (i : Nat) (hi : i < M.length) :
    ¬ memPt (M.getD i (0, 0)).2 M := by
  rintro ⟨q, hq, hq1, hq2⟩
  obtain ⟨k, hk, hkq⟩ := List.getElem_of_mem hq
  have hgi : M.getD i (0, 0) = M[i] := by
    simp [List.getD_eq_getElem?_getD, List.getElem?_eq_getElem hi]
  rw [hgi] at hq1 hq2
  have hsep' := List.pairwise_iff_getElem.mp hsep
  have hwfi : M[i].1 < M[i].2 := hwf M[i] (List.getElem_mem hi)
  have hwfk : M[k].1 < M[k].2 := hwf M[k] (List.getElem_mem hk)
  rcases Nat.lt_trichotomy k i with hlt | heq | hgt
  · have hs := hsep' k i hk hi hlt
    unfold sep at hs
    rw [← hkq] at hq1 hq2
    omega
  · subst heq
    rw [← hkq] at hq1 hq2
    omega
  · have hs := hsep' i k hi hk hgt
    unfold sep at hs
    rw [← hkq] at hq1 hq2
    omega

/-- A canonical interval list is no longer than any interval list covering
the same union of points. -/
lemma canonical_min_length (M L : List (Int × Int))
    (hwf : ∀ p ∈ M, p.1 < p.2) (hsep : M.Pairwise sep)
    (hcov : ∀ x : Int, memPt x M ↔ memPt x L) :
    M.length ≤ L.length := by
  have hstart : ∀ i : Fin M.length, memPt (M.getD i.1 (0, 0)).1 L := by
    intro i
    refine (hcov _).mp ⟨M.getD i.1 (0, 0), getD_mem M i.1 i.2, le_refl _, ?_⟩
    exact hwf _ (getD_mem M i.1 i.2)
  have key : ∀ i j : Fin M.length, i.1 < j.1 →
      findCover (M.getD i.1 (0, 0)).1 L ≠ findCover (M.getD j.1 (0, 0)).1 L := by
    intro i j hij heq
    have hi := findCover_spec _ L (hstart i)
    have hj := findCover_spec _ L (hstart j)
    rw [heq] at hi
    set q := L.getD (findCover (M.getD j.1 (0, 0)).1 L) (0, 0) with hqdef
    have hsep' := List.pairwise_iff_getElem.mp hsep
    have hs := hsep' i.1 j.1 i.2 j.2 hij
    unfold sep at hs
    have hgi : M.getD i.1 (0, 0) = M[i.1] := by
      simp [List.getD_eq_getElem?_getD, List.getElem?_eq_getElem i.2]
    have hgj : M.getD j.1 (0, 0) = M[j.1] := by
      simp [List.getD_eq_getElem?_getD, List.getElem?_eq_getElem j.2]
    have hwfi : (M.getD i.1 (0, 0)).1 < (M.getD i.1 (0, 0)).2 :=
      hwf _ (getD_mem M i.1 i.2)
    have hs' : (M.getD i.1 (0, 0)).2 < (M.getD j.1 (0, 0)).1 := by
      rw [hgi, hgj]
      exact hs
    have hmem : memPt (M.getD i.1 (0, 0)).2 L := by
      refine ⟨q, getD_mem L _ hj.1, ?_, ?_⟩
      · have := hi.2.1
        omega
      · have h1 := hj.2.1
        have h2 := hj.2.2
        omega
    exact canonical_end_notMem M hwf hsep i.1 i.2 ((hcov _).mpr hmem)
  have hinj : Function.Injective
      (fun i : Fin M.length =>
        (⟨findCover (M.getD i.1 (0, 0)).1 L, (findCover_spec _ L (hstart i)).1⟩ :
          Fin L.length)) := by
    intro i j hij
    simp only [Fin.mk.injEq] at hij
    by_contra hne
    rcases Nat.lt_trichotomy i.1 j.1 with hlt | heq | hgt
    · exact key i j hlt hij
    · exact hne (Fin.ext heq)
    · exact key j i hgt hij.symm
  have := Fintype.card_le_of_injective _ hinj
  simpa using this

/-- Claim C2: on half-open integer intervals with start < end,
merge_intervals returns a sorted list of disjoint (strictly separated)
nonempty intervals covering exactly the same union of points, of minimal
length among all interval lists covering that union; the empty input
yields the empty output. -/
theorem merge_intervals_correct (l : List (Int × Int))
    (hwf : ∀ p ∈ l, p.1 < p.2) :
    merge_intervals [] = ([] : List (Int × Int)) ∧
    (∀ x : Int, memPt x (merge_intervals l) ↔ memPt x l) ∧
    (∀ p ∈ merge_intervals l, p.1 < p.2) ∧
    (merge_intervals l).Pairwise sep ∧
    (∀ L : List (Int × Int), (∀ x : Int, memPt x L ↔ memPt x l) →
      (merge_intervals l).length ≤ L.length) := by
  have hc := merge_intervals_canonical l hwf
  refine ⟨rfl, fun x => merge_intervals_memPt l x, hc.1, hc.2, ?_⟩
  intro L hL
  exact canonical_min_length (merge_intervals l) L hc.1 hc.2
    (fun x => (merge_intervals_memPt l x).trans ((hL x).symm))

/-- Witness for C2 at the overlapping-intervals example of the test
suite: the hypothesis holds and the merge is the expected minimal one. -/
theorem merge_intervals_correct_witness :
    (∀ p ∈ [((0 : Int), (50 : Int)), (25, 75), (100, 150)], p.1 < p.2) ∧
    (merge_intervals [((0 : Int), (50 : Int)), (25, 75), (100, 150)]).Pairwise sep ∧
    merge_intervals [((0 : Int), (50 : Int)), (25, 75), (100, 150)] =
      [(0, 75), (100, 150)] :=
  ⟨by decide,
   (merge_intervals_correct [((0 : Int), (50 : Int)), (25, 75), (100, 150)]
     (by decide)).2.2.2.1,
   by decide⟩

/-- Claim C7: on well-formed input the output of merge_intervals is
sorted by start and pairwise strictly separated: each output interval
ends strictly before the next one starts, so touching intervals are
never left adjacent in the output. -/
theorem merge_intervals_separated (l : List (Int × Int))
    (hwf : ∀ p ∈ l, p.1 < p.2) :
    (merge_intervals l).Pairwise (fun p q => p.1 < q.1) ∧
    (merge_intervals l).Pairwise sep := by
  have hc := merge_intervals_canonical l hwf
  refine ⟨hc.2.imp_of_mem ?_, hc.2⟩
  intro p q hp _ hs
  have hwfp := hc.1 p hp
  unfold sep at hs
  omega

/-- Witness for C7 at the touching-intervals example: (0,50) and (50,100)
merge, so the output is the single interval (0,100). -/
theorem merge_intervals_separated_witness :
    (∀ p ∈ [((0 : Int), (50 : Int)), (50, 100)], p.1 < p.2) ∧
    (merge_intervals [((0 : Int), (50 : Int)), (50, 100)]).Pairwise sep ∧
    merge_intervals [((0 : Int), (50 : Int)), (50, 100)] = [(0, 100)] :=
  ⟨by decide,
   (merge_intervals_separated [((0 : Int), (50 : Int)), (50, 100)]
     (by decide)).2,
   by decide⟩

/-- Claim C8: merge_intervals is invariant under permutation of its
input: any two input orders of the same intervals give the same merged
output, so the arbitrary tie-break among equal starts is harmless. -/
theorem merge_intervals_perm_invariant (l l' : List (Int × Int))
    (hwf : ∀ p ∈ l, p.1 < p.2) (hperm : List.Perm l l') :
    merge_intervals l = merge_intervals l' := by
  unfold merge_intervals
  rw [insertionSort_perm_eq hperm]

/-- Witness for C8: the reversed input with equal-start intervals gives
the same merge. -/
theorem merge_intervals_perm_invariant_witness :
    (∀ p ∈ [((50 : Int), (100 : Int)), (0, 50), (0, 25)], p.1 < p.2) ∧
    List.Perm [((50 : Int), (100 : Int)), (0, 50), (0, 25)]
      [((0 : Int), (25 : Int)), (0, 50), (50, 100)] ∧
    merge_intervals [((50 : Int), (100 : Int)), (0, 50), (0, 25)] =
      merge_intervals [((0 : Int), (25 : Int)), (0, 50), (50, 100)] :=
  ⟨by decide, by decide,
   merge_intervals_perm_invariant _ _ (by decide) (by decide)⟩

/-- The running minimum of start times is a member (or the seed) and a
lower bound. -/
lemma foldl_min_start_spec :
    ∀ (t : List Report) (a : Int),
      (t.foldl (fun m r => min m r.start_time) a = a ∨
        ∃ r ∈ t, t.foldl (fun m r => min m r.start_time) a = r.start_time) ∧
      t.foldl (fun m r => min m r.start_time) a ≤ a ∧
      (∀ r ∈ t, t.foldl (fun m r => min m r.start_time) a ≤ r.start_time)
  | [], a => ⟨Or.inl rfl, le_refl a, fun r hr => absurd hr (List.not_mem_nil r)⟩
  | r0 :: t, a => by
    simp only [List.foldl_cons]
    have ih := foldl_min_start_spec t (min a r0.start_time)
    refine ⟨?_, ?_, ?_⟩
    · rcases ih.1 with h | ⟨r, hr, hres⟩
      · rw [h]
        rcases le_total a r0.start_time with hle | hle
        · exact Or.inl (min_eq_left hle)
        · exact Or.inr ⟨r0, List.mem_cons_self r0 t, min_eq_right hle⟩
      · exact Or.inr ⟨r, List.mem_cons_of_mem _ hr, hres⟩
    · exact le_trans ih.2.1 (min_le_left _ _)
    · intro r hr
      rcases List.mem_cons.mp hr with h | h
      · rw [h]
        exact le_trans ih.2.1 (min_le_right _ _)
      · exact ih.2.2 r h

/-- The running maximum of end times is a member (or the seed) and an
upper bound. -/
lemma foldl_max_end_spec :
    ∀ (t : List Report) (b : Int),
      (t.foldl (fun m r => max m r.end_time) b = b ∨
        ∃ r ∈ t, t.foldl (fun m r => max m r.end_time) b = r.end_time) ∧
      b ≤ t.foldl (fun m r => max m r.end_time) b ∧
      (∀ r ∈ t, r.end_time ≤ t.foldl (fun m r => max m r.end_time) b)
  | [], b => ⟨Or.inl rfl, le_refl b, fun r hr => absurd hr (List.not_mem_nil r)⟩
  | r0 :: t, b => by
    simp only [List.foldl_cons]
    have ih := foldl_max_end_spec t (max b r0.end_time)
    refine ⟨?_, ?_, ?_⟩
    · rcases ih.1 with h | ⟨r, hr, hres⟩
      · rw [h]
        rcases le_total b r0.end_time with hle | hle
        · exact Or.inr ⟨r0, List.mem_cons_self r0 t, max_eq_right hle⟩
        · exact Or.inl (max_eq_left hle)
      · exact Or.inr ⟨r, List.mem_cons_of_mem _ hr, hres⟩
    · exact le_trans (le_max_left _ _) ih.2.1
    · intro r hr
      rcases List.mem_cons.mp hr with h | h
      · rw [h]
        exact le_trans (le_max_right _ _) ih.2.1
      · exact ih.2.2 r h

/-- Once both accumulators are set, the reporting-period fold computes
the min of start times and the max of end times of the matching tail. -/
lemma period_fold_some (charger_ids : List Int) :
    ∀ (rs : List Report) (a b : Int),
      rs.foldl (period_step charger_ids) (some a, some b) =
        (some ((station_reports charger_ids rs).foldl
            (fun m r => min m r.start_time) a),
         some ((station_reports charger_ids rs).foldl
            (fun m r => max m r.end_time) b))
  | [], a, b => by simp [station_reports]
  | r :: rs, a, b => by
    by_cases h : r.charger_id ∈ charger_ids
    · have hstep : period_step charger_ids (some a, some b) r =
          (some (min a r.start_time), some (max b r.end_time)) := by
        unfold period_step
        rw [if_pos h]
        show (some (if r.start_time < a then r.start_time else a),
              some (if r.end_time > b then r.end_time else b)) =
            (some (min a r.start_time), some (max b r.end_time))
        simp only [Prod.mk.injEq, Option.some.injEq]
        omega
      simp only [List.foldl_cons, hstep,
        period_fold_some charger_ids rs (min a r.start_time) (max b r.end_time)]
      simp [station_reports, List.filter_cons, h]
    · have hstep : period_step charger_ids (some a, some b) r = (some a, some b) := by
        unfold period_step
        rw [if_neg h]
      simp only [List.foldl_cons, hstep, period_fold_some charger_ids rs a b]
      simp [station_reports, List.filter_cons, h]

/-- Starting from unset accumulators, the reporting-period fold returns
unset accumulators iff no report matches; with a first matching report it
computes min/max seeded by that report. -/
lemma period_fold_none (charger_ids : List Int) :
    ∀ rs : List Report,
      (station_reports charger_ids rs = [] →
        rs.foldl (period_step charger_ids) (none, none) = (none, none)) ∧
      (∀ r0 t, station_reports charger_ids rs = r0 :: t →
        rs.foldl (period_step charger_ids) (none, none) =
          (some (t.foldl (fun m r => min m r.start_time) r0.start_time),
           some (t.foldl (fun m r => max m r.end_time) r0.end_time)))
  | [] => ⟨fun _ => rfl, fun r0 t h => by simp [station_reports] at h⟩
  | r :: rs => by
    by_cases h : r.charger_id ∈ charger_ids
    · have hstep : period_step charger_ids (none, none) r =
          (some r.start_time, some r.end_time) := by
        unfold period_step
        rw [if_pos h]
      constructor
      · intro hempty
        simp [station_reports, List.filter_cons, h] at hempty
      · intro r0 t ht
        have ht' : r :: station_reports charger_ids rs = r0 :: t := by
          simpa [station_reports, List.filter_cons, h] using ht
        have hr0 : r = r0 := by injection ht'
        have htt : station_reports charger_ids rs = t := by injection ht'
        simp only [List.foldl_cons, hstep,
          period_fold_some charger_ids rs r.start_time r.end_time]
        rw [hr0, htt]
    · have hstep : period_step charger_ids (none, none) r = (none, none) := by
        unfold period_step
        rw [if_neg h]
      constructor
      · intro hempty
        have hrs : station_reports charger_ids rs = [] := by
          simpa [station_reports, List.filter_cons, h] using hempty
        simp only [List.foldl_cons, hstep]
        exact (period_fold_none charger_ids rs).1 hrs
      · intro r0 t ht
        have hrs : station_reports charger_ids rs = r0 :: t := by
          simpa [station_reports, List.filter_cons, h] using ht
        simp only [List.foldl_cons, hstep]
        exact (period_fold_none charger_ids rs).2 r0 t hrs

/-- With no matching report, get_station_reporting_period returns the
(0, 0) sentinel. -/
lemma gsrp_empty (station_id : Int) (charger_ids : List Int)
    (reports : List Report) (h : station_reports charger_ids reports = []) :
    get_station_reporting_period station_id charger_ids reports = (0, 0) := by
  unfold get_station_reporting_period
  rw [(period_fold_none charger_ids reports).1 h]

/-- With a first matching report, get_station_reporting_period returns
the min start and max end over the matching reports. -/
lemma gsrp_cons (station_id : Int) (charger_ids : List Int)
    (reports : List Report) (r0 : Report) (t : List Report)
    (h : station_reports charger_ids reports = r0 :: t) :
    get_station_reporting_period station_id charger_ids reports =
      (t.foldl (fun m r => min m r.start_time) r0.start_time,
       t.foldl (fun m r => max m r.end_time) r0.end_time) := by
  unfold get_station_reporting_period
  rw [(period_fold_none charger_ids reports).2 r0 t h]

/-- The resolved window bounds every matching report. -/
lemma gsrp_bounds (station_id : Int) (charger_ids : List Int)
    (reports : List Report) (r : Report)
    (hr : r ∈ station_reports charger_ids reports) :
    (get_station_reporting_period station_id charger_ids reports).1 ≤
      r.start_time ∧
    r.end_time ≤
      (get_station_reporting_period station_id charger_ids reports).2 := by
  cases h : station_reports charger_ids reports with
  | nil =>
    rw [h] at hr
    exact absurd hr (List.not_mem_nil r)
  | cons r0 t =>
    rw [h] at hr
    rw [gsrp_cons station_id charger_ids reports r0 t h]
    have hmin := foldl_min_start_spec t r0.start_time
    have hmax := foldl_max_end_spec t r0.end_time
    rcases List.mem_cons.mp hr with heq | hmem
    · rw [heq]
      exact ⟨hmin.2.1, hmax.2.1⟩
    · exact ⟨hmin.2.2 r hmem, hmax.2.2 r hmem⟩

/-- Claim C3: the Window Resolver returns the minimum start and maximum
end over all reports whose charger_id is in the station's set, and the
(0, 0) sentinel when no report matches. -/
theorem get_station_reporting_period_spec (station_id : Int)
    (charger_ids : List Int) (reports : List Report) :
    (station_reports charger_ids reports = [] →
      get_station_reporting_period station_id charger_ids reports = (0, 0)) ∧
    (station_reports charger_ids reports ≠ [] →
      (∃ r ∈ station_reports charger_ids reports,
        (get_station_reporting_period station_id charger_ids reports).1 =
          r.start_time) ∧
      (∀ r ∈ station_reports charger_ids reports,
        (get_station_reporting_period station_id charger_ids reports).1 ≤
          r.start_time) ∧
      (∃ r ∈ station_reports charger_ids reports,
        (get_station_reporting_period station_id charger_ids reports).2 =
          r.end_time) ∧
      (∀ r ∈ station_reports charger_ids reports,
        r.end_time ≤
          (get_station_reporting_period station_id charger_ids reports).2)) := by
  refine ⟨gsrp_empty station_id charger_ids reports, ?_⟩
  intro hne
  cases h : station_reports charger_ids reports with
  | nil => exact absurd h hne
  | cons r0 t =>
    rw [gsrp_cons station_id charger_ids reports r0 t h]
    have hmin := foldl_min_start_spec t r0.start_time
    have hmax := foldl_max_end_spec t r0.end_time
    refine ⟨?_, ?_, ?_, ?_⟩
    · rcases hmin.1 with he | ⟨r, hr, he⟩
      · exact ⟨r0, List.mem_cons_self r0 t, he⟩
      · exact ⟨r, List.mem_cons_of_mem r0 hr, he⟩
    · intro r hr
      rcases List.mem_cons.mp hr with heq | hmem
      · rw [heq]
        exact hmin.2.1
      · exact hmin.2.2 r hmem
    · rcases hmax.1 with he | ⟨r, hr, he⟩
      · exact ⟨r0, List.mem_cons_self r0 t, he⟩
      · exact ⟨r, List.mem_cons_of_mem r0 hr, he⟩
    · intro r hr
      rcases List.mem_cons.mp hr with heq | hmem
      · rw [heq]
        exact hmax.2.1
      · exact hmax.2.2 r hmem

/-- Witness for C3 at the reporting-period example of the test suite:
station chargers 1001 and 1002 over four reports give window (0, 300). -/
theorem get_station_reporting_period_spec_witness :
    (station_reports [1001, 1002]
        [⟨1001, 0, 100, true⟩, ⟨1001, 200, 300, false⟩,
         ⟨1002, 50, 150, true⟩, ⟨1003, 25, 75, true⟩] ≠ [] →
      (∃ r ∈ station_reports [1001, 1002]
          [⟨1001, 0, 100, true⟩, ⟨1001, 200, 300, false⟩,
           ⟨1002, 50, 150, true⟩, ⟨1003, 25, 75, true⟩],
        (get_station_reporting_period 0 [1001, 1002]
          [⟨1001, 0, 100, true⟩, ⟨1001, 200, 300, false⟩,
           ⟨1002, 50, 150, true⟩, ⟨1003, 25, 75, true⟩]).1 = r.start_time) ∧
      (∀ r ∈ station_reports [1001, 1002]
          [⟨1001, 0, 100, true⟩, ⟨1001, 200, 300, false⟩,
           ⟨1002, 50, 150, true⟩, ⟨1003, 25, 75, true⟩],
        (get_station_reporting_period 0 [1001, 1002]
          [⟨1001, 0, 100, true⟩, ⟨1001, 200, 300, false⟩,
           ⟨1002, 50, 150, true⟩, ⟨1003, 25, 75, true⟩]).1 ≤ r.start_time) ∧
      (∃ r ∈ station_reports [1001, 1002]
          [⟨1001, 0, 100, true⟩, ⟨1001, 200, 300, false⟩,
           ⟨1002, 50, 150, true⟩, ⟨1003, 25, 75, true⟩],
        (get_station_reporting_period 0 [1001, 1002]
          [⟨1001, 0, 100, true⟩, ⟨1001, 200, 300, false⟩,
           ⟨1002, 50, 150, true⟩, ⟨1003, 25, 75, true⟩]).2 = r.end_time) ∧
      (∀ r ∈ station_reports [1001, 1002]
          [⟨1001, 0, 100, true⟩, ⟨1001, 200, 300, false⟩,
           ⟨1002, 50, 150, true⟩, ⟨1003, 25, 75, true⟩],
        r.end_time ≤
          (get_station_reporting_period 0 [1001, 1002]
            [⟨1001, 0, 100, true⟩, ⟨1001, 200, 300, false⟩,
             ⟨1002, 50, 150, true⟩, ⟨1003, 25, 75, true⟩]).2)) ∧
    get_station_reporting_period 0 [1001, 1002]
      [⟨1001, 0, 100, true⟩, ⟨1001, 200, 300, false⟩,
       ⟨1002, 50, 150, true⟩, ⟨1003, 25, 75, true⟩] = (0, 300) ∧
    get_station_reporting_period 0 [9999]
      [⟨1003, 25, 75, true⟩] = (0, 0) :=
  ⟨(get_station_reporting_period_spec 0 [1001, 1002]
      [⟨1001, 0, 100, true⟩, ⟨1001, 200, 300, false⟩,
       ⟨1002, 50, 150, true⟩, ⟨1003, 25, 75, true⟩]).2,
   by decide, by decide⟩

/-- The clipping/summing loop computes the sum of clipped lengths. -/
lemma foldl_clip_eq (lo hi : Int) :
    ∀ (M : List (Int × Int)) (acc : Int),
      M.foldl (clip_step lo hi) acc = acc + clipped_total lo hi M
  | [], acc => by simp [clipped_total]
  | p :: M, acc => by
    simp only [List.foldl_cons, clipped_total, List.map_cons, List.sum_cons]
    rw [foldl_clip_eq lo hi M (clip_step lo hi acc p)]
    have hstep : clip_step lo hi acc p = acc + clipLen lo hi p := by
      show (if max p.1 lo < min p.2 hi then acc + (min p.2 hi - max p.1 lo)
            else acc) = acc + max (min p.2 hi - max p.1 lo) 0
      omega
    simp only [clipped_total]
    omega

/-- The direct-length loop computes the sum of interval lengths. -/
lemma foldl_addlen_eq :
    ∀ (M : List (Int × Int)) (acc : Int),
      M.foldl (fun acc p => acc + (p.2 - p.1)) acc =
        acc + (M.map (fun p => p.2 - p.1)).sum
  | [], acc => by simp
  | p :: M, acc => by
    simp only [List.foldl_cons, List.map_cons, List.sum_cons]
    rw [foldl_addlen_eq M (acc + (p.2 - p.1))]
    omega

/-- Clipped lengths are nonnegative, so their sum is. -/
lemma clipped_total_nonneg (lo hi : Int) :
    ∀ M : List (Int × Int), 0 ≤ clipped_total lo hi M
  | [] => le_refl 0
  | p :: M => by
    have ih := clipped_total_nonneg lo hi M
    simp only [clipped_total, List.map_cons, List.sum_cons] at ih ⊢
    unfold clipLen at ih ⊢
    omega

/-- An inverted or empty window clips every interval to nothing. -/
lemma clipped_total_empty_window (lo hi : Int) (h : hi ≤ lo) :
    ∀ M : List (Int × Int), clipped_total lo hi M = 0
  | [] => rfl
  | p :: M => by
    have ih := clipped_total_empty_window lo hi h M
    simp only [clipped_total, List.map_cons, List.sum_cons] at ih ⊢
    unfold clipLen at ih ⊢
    omega

/-- Pairwise-separated nonempty intervals clipped to [lo, hi) have total
clipped length at most hi - lo. -/
lemma clipped_total_le :
    ∀ (M : List (Int × Int)), (∀ p ∈ M, p.1 < p.2) → M.Pairwise sep →
      ∀ lo hi : Int, lo ≤ hi → clipped_total lo hi M ≤ hi - lo
  | [], _, _, lo, hi, hle => by
    simp only [clipped_total, List.map_nil, List.sum_nil]
    omega
  | m :: M, hwf, hsep, lo, hi, hle => by
    have hrest : ∀ p ∈ M, clipLen lo hi p = clipLen (max lo (min m.2 hi)) hi p := by
      intro p hp
      have hm2 : sep m p := List.rel_of_pairwise_cons hsep hp
      unfold sep at hm2
      unfold clipLen
      omega
    have ih := clipped_total_le M
      (fun p hp => hwf p (List.mem_cons_of_mem _ hp)) hsep.of_cons
      (max lo (min m.2 hi)) hi (by omega)
    simp only [clipped_total, List.map_cons, List.sum_cons] at ih ⊢
    rw [List.map_congr_left hrest]
    have hhead : clipLen lo hi m ≤ max lo (min m.2 hi) - lo := by
      unfold clipLen
      omega
    omega

/-- calculate_station_uptime in closed form: 0 on a degenerate window,
otherwise the floor division of 100 times the clipped total by the span. -/
lemma csu_eq (station_id : Int) (charger_ids : List Int)
    (reports : List Report) :
    calculate_station_uptime station_id charger_ids reports =
      if (get_station_reporting_period station_id charger_ids reports).1 =
          (get_station_reporting_period station_id charger_ids reports).2 then 0
      else
        Int.fdiv
          (clipped_total
            (get_station_reporting_period station_id charger_ids reports).1
            (get_station_reporting_period station_id charger_ids reports).2
            (merge_intervals (up_intervals charger_ids reports)) * 100)
          ((get_station_reporting_period station_id charger_ids reports).2 -
            (get_station_reporting_period station_id charger_ids reports).1) := by
  simp only [calculate_station_uptime]
  by_cases h : (get_station_reporting_period station_id charger_ids reports).1 =
      (get_station_reporting_period station_id charger_ids reports).2
  · rw [if_pos h, if_pos h]
  · rw [if_neg h, if_neg h, foldl_clip_eq, zero_add]

/-- up_intervals of well-formed reports are well-formed. -/
lemma up_intervals_wf (charger_ids : List Int) (reports : List Report)
    (hwf : ∀ r ∈ reports, r.start_time < r.end_time) :
    ∀ p ∈ up_intervals charger_ids reports, p.1 < p.2 := by
  intro p hp
  unfold up_intervals at hp
  rw [List.mem_map] at hp
  obtain ⟨r, hr, hrp⟩ := hp
  rw [← hrp]
  exact hwf r (List.mem_of_mem_filter hr)

/-- Every up interval comes from a matching report of the station. -/
lemma up_intervals_sub (charger_ids : List Int) (reports : List Report) :
    ∀ p ∈ up_intervals charger_ids reports,
      ∃ r ∈ station_reports charger_ids reports,
        p = (r.start_time, r.end_time) := by
  intro p hp
  unfold up_intervals at hp
  rw [List.mem_map] at hp
  obtain ⟨r, hr, hrp⟩ := hp
  rw [List.mem_filter] at hr
  refine ⟨r, ?_, hrp.symm⟩
  unfold station_reports
  rw [List.mem_filter]
  have h2 := hr.2
  simp only [Bool.and_eq_true] at h2
  exact ⟨hr.1, h2.1⟩

/-- Every merged up interval lies inside the resolved window. -/
lemma merged_in_window (station_id : Int) (charger_ids : List Int)
    (reports : List Report)
    (hwf : ∀ r ∈ reports, r.start_time < r.end_time) :
    ∀ p ∈ merge_intervals (up_intervals charger_ids reports),
      (get_station_reporting_period station_id charger_ids reports).1 ≤ p.1 ∧
      p.2 ≤ (get_station_reporting_period station_id charger_ids reports).2 := by
  apply merge_intervals_bounds _ (up_intervals_wf charger_ids reports hwf)
  intro p hp
  obtain ⟨r, hr, hrp⟩ := up_intervals_sub charger_ids reports p hp
  have hb := gsrp_bounds station_id charger_ids reports r hr
  rw [hrp]
  exact hb

/-- station_reports returns reports of the input list. -/
lemma station_reports_sub (charger_ids : List Int) (reports : List Report)
    (r : Report) (hr : r ∈ station_reports charger_ids reports) : r ∈ reports :=
  List.mem_of_mem_filter hr

/-- A nondegenerate window of well-formed reports has positive span. -/
lemma gsrp_span_pos (station_id : Int) (charger_ids : List Int)
    (reports : List Report)
    (hwf : ∀ r ∈ reports, r.start_time < r.end_time)
    (hne : (get_station_reporting_period station_id charger_ids reports).1 ≠
      (get_station_reporting_period station_id charger_ids reports).2) :
    (get_station_reporting_period station_id charger_ids reports).1 <
      (get_station_reporting_period station_id charger_ids reports).2 := by
  cases h : station_reports charger_ids reports with
  | nil =>
    rw [gsrp_empty station_id charger_ids reports h] at hne
    exact absurd rfl hne
  | cons r0 t =>
    have hr0 : r0 ∈ station_reports charger_ids reports := by
      rw [h]
      exact List.mem_cons_self r0 t
    have hb := gsrp_bounds station_id charger_ids reports r0 hr0
    have hwfr := hwf r0 (station_reports_sub charger_ids reports r0 hr0)
    omega

/-- Claim C1: on a nondegenerate window, calculate_station_uptime returns
exactly the truncating integer division of 100 times the clipped total of
the merged up intervals by the window span (truncation and floor agree
here, so the result never rounds to nearest or up). -/
theorem calculate_station_uptime_truncdiv (station_id : Int)
    (charger_ids : List Int) (reports : List Report)
    (h : (get_station_reporting_period station_id charger_ids reports).1 ≠
      (get_station_reporting_period station_id charger_ids reports).2) :
    calculate_station_uptime station_id charger_ids reports =
      Int.tdiv
        (clipped_total
          (get_station_reporting_period station_id charger_ids reports).1
          (get_station_reporting_period station_id charger_ids reports).2
          (merge_intervals (up_intervals charger_ids reports)) * 100)
        ((get_station_reporting_period station_id charger_ids reports).2 -
          (get_station_reporting_period station_id charger_ids reports).1) := by
  rw [csu_eq, if_neg h]
  set w1 := (get_station_reporting_period station_id charger_ids reports).1
  set w2 := (get_station_reporting_period station_id charger_ids reports).2
  set T := clipped_total w1 w2
    (merge_intervals (up_intervals charger_ids reports)) with hT
  have hTpos : 0 ≤ T :=
    clipped_total_nonneg w1 w2 (merge_intervals (up_intervals charger_ids reports))
  rcases lt_trichotomy w1 w2 with hlt | heq | hgt
  · rw [Int.fdiv_eq_ediv _ (by omega), Int.tdiv_eq_ediv (by omega) (by omega)]
  · exact absurd heq h
  · have hT0 : T = 0 := hT.trans
      (clipped_total_empty_window w1 w2 (le_of_lt hgt) _)
    rw [hT0]
    simp

/-- Witness for C1: up 10 ticks of a 30-tick window gives 33 (truncated,
not rounded). -/
theorem calculate_station_uptime_truncdiv_witness :
    (get_station_reporting_period 0 [1001]
        [⟨1001, 0, 10, true⟩, ⟨1001, 20, 30, false⟩]).1 ≠
      (get_station_reporting_period 0 [1001]
        [⟨1001, 0, 10, true⟩, ⟨1001, 20, 30, false⟩]).2 ∧
    calculate_station_uptime 0 [1001]
        [⟨1001, 0, 10, true⟩, ⟨1001, 20, 30, false⟩] =
      Int.tdiv
        (clipped_total
          (get_station_reporting_period 0 [1001]
            [⟨1001, 0, 10, true⟩, ⟨1001, 20, 30, false⟩]).1
          (get_station_reporting_period 0 [1001]
            [⟨1001, 0, 10, true⟩, ⟨1001, 20, 30, false⟩]).2
          (merge_intervals (up_intervals [1001]
            [⟨1001, 0, 10, true⟩, ⟨1001, 20, 30, false⟩])) * 100)
        ((get_station_reporting_period 0 [1001]
            [⟨1001, 0, 10, true⟩, ⟨1001, 20, 30, false⟩]).2 -
          (get_station_reporting_period 0 [1001]
            [⟨1001, 0, 10, true⟩, ⟨1001, 20, 30, false⟩]).1) ∧
    calculate_station_uptime 0 [1001]
        [⟨1001, 0, 10, true⟩, ⟨1001, 20, 30, false⟩] = 33 :=
  ⟨by decide,
   calculate_station_uptime_truncdiv 0 [1001]
     [⟨1001, 0, 10, true⟩, ⟨1001, 20, 30, false⟩] (by decide),
   by decide⟩

/-- Claim C5: a degenerate observation window (start = end, including the
(0, 0) sentinel of a station with no matching reports) yields uptime 0,
not an error. -/
theorem calculate_station_uptime_degenerate_window (station_id : Int)
    (charger_ids : List Int) (reports : List Report)
    (h : (get_station_reporting_period station_id charger_ids reports).1 =
      (get_station_reporting_period station_id charger_ids reports).2) :
    calculate_station_uptime station_id charger_ids reports = 0 := by
  rw [csu_eq, if_pos h]

/-- Witness for C5: a station whose charger has no reports gets the
(0, 0) sentinel window and uptime 0. -/
theorem calculate_station_uptime_degenerate_window_witness :
    (get_station_reporting_period 0 [1001] ([] : List Report)).1 =
      (get_station_reporting_period 0 [1001] ([] : List Report)).2 ∧
    calculate_station_uptime 0 [1001] ([] : List Report) = 0 :=
  ⟨by decide,
   calculate_station_uptime_degenerate_window 0 [1001] [] (by decide)⟩

/-- Claim C6: on reports with start < end, the uptime percentage lies in
[0, 100]. -/
theorem calculate_station_uptime_range (station_id : Int)
    (charger_ids : List Int) (reports : List Report)
    (hwf : ∀ r ∈ reports, r.start_time < r.end_time) :
    0 ≤ calculate_station_uptime station_id charger_ids reports ∧
    calculate_station_uptime station_id charger_ids reports ≤ 100 := by
  rw [csu_eq]
  by_cases h : (get_station_reporting_period station_id charger_ids reports).1 =
      (get_station_reporting_period station_id charger_ids reports).2
  · rw [if_pos h]
    omega
  · rw [if_neg h]
    set w1 := (get_station_reporting_period station_id charger_ids reports).1
    set w2 := (get_station_reporting_period station_id charger_ids reports).2
    set M := merge_intervals (up_intervals charger_ids reports) with hM
    have hspan : w1 < w2 := gsrp_span_pos station_id charger_ids reports hwf h
    have hTpos : 0 ≤ clipped_total w1 w2 M := clipped_total_nonneg w1 w2 M
    have hmc := merge_intervals_canonical (up_intervals charger_ids reports)
      (up_intervals_wf charger_ids reports hwf)
    have hTle : clipped_total w1 w2 M ≤ w2 - w1 := by
      rw [hM]
      exact clipped_total_le _ hmc.1 hmc.2 w1 w2 (le_of_lt hspan)
    constructor
    · exact Int.fdiv_nonneg (by omega) (by omega)
    · rw [Int.fdiv_eq_ediv _ (by omega)]
      have h100 : clipped_total w1 w2 M * 100 ≤ 100 * (w2 - w1) := by omega
      have hmono := Int.ediv_le_ediv (by omega : (0 : Int) < w2 - w1) h100
      rwa [Int.mul_ediv_cancel 100 (by omega : w2 - w1 ≠ 0)] at hmono

/-- Witness for C6 at the gap example: 75 lies in [0, 100]. -/
theorem calculate_station_uptime_range_witness :
    (∀ r ∈ [(⟨1004, 0, 50, true⟩ : Report), ⟨1004, 100, 200, true⟩],
      r.start_time < r.end_time) ∧
    (0 ≤ calculate_station_uptime 2 [1004]
        [⟨1004, 0, 50, true⟩, ⟨1004, 100, 200, true⟩] ∧
      calculate_station_uptime 2 [1004]
        [⟨1004, 0, 50, true⟩, ⟨1004, 100, 200, true⟩] ≤ 100) :=
  ⟨by decide,
   calculate_station_uptime_range 2 [1004]
     [⟨1004, 0, 50, true⟩, ⟨1004, 100, 200, true⟩] (by decide)⟩

/-- Claim C9: on well-formed reports every merged up interval already lies
inside the resolved window, so clipping never truncates or discards
anything and calculate_station_uptime equals the no-clipping variant. -/
theorem calculate_station_uptime_noclip_eq (station_id : Int)
    (charger_ids : List Int) (reports : List Report)
    (hwf : ∀ r ∈ reports, r.start_time < r.end_time) :
    (∀ p ∈ merge_intervals (up_intervals charger_ids reports),
      (get_station_reporting_period station_id charger_ids reports).1 ≤ p.1 ∧
      p.2 ≤ (get_station_reporting_period station_id charger_ids reports).2) ∧
    calculate_station_uptime station_id charger_ids reports =
      calculate_station_uptime_noclip station_id charger_ids reports := by
  refine ⟨merged_in_window station_id charger_ids reports hwf, ?_⟩
  simp only [calculate_station_uptime, calculate_station_uptime_noclip]
  by_cases h : (get_station_reporting_period station_id charger_ids reports).1 =
      (get_station_reporting_period station_id charger_ids reports).2
  · rw [if_pos h, if_pos h]
  · rw [if_neg h, if_neg h, foldl_clip_eq, foldl_addlen_eq, zero_add, zero_add]
    have hmc := merge_intervals_canonical (up_intervals charger_ids reports)
      (up_intervals_wf charger_ids reports hwf)
    have heq : clipped_total
        (get_station_reporting_period station_id charger_ids reports).1
        (get_station_reporting_period station_id charger_ids reports).2
        (merge_intervals (up_intervals charger_ids reports)) =
        ((merge_intervals (up_intervals charger_ids reports)).map
          (fun p => p.2 - p.1)).sum := by
      unfold clipped_total
      refine congrArg List.sum (List.map_congr_left ?_)
      intro p hp
      have hb := merged_in_window station_id charger_ids reports hwf p hp
      have hw := hmc.1 p hp
      unfold clipLen
      omega
    rw [heq]

/-- Witness for C9 at the gap example: clipping changes nothing. -/
theorem calculate_station_uptime_noclip_eq_witness :
    (∀ r ∈ [(⟨1004, 0, 50, true⟩ : Report), ⟨1004, 100, 200, true⟩],
      r.start_time < r.end_time) ∧
    ((∀ p ∈ merge_intervals (up_intervals [1004]
        [⟨1004, 0, 50, true⟩, ⟨1004, 100, 200, true⟩]),
      (get_station_reporting_period 2 [1004]
        [⟨1004, 0, 50, true⟩, ⟨1004, 100, 200, true⟩]).1 ≤ p.1 ∧
      p.2 ≤ (get_station_reporting_period 2 [1004]
        [⟨1004, 0, 50, true⟩, ⟨1004, 100, 200, true⟩]).2) ∧
    calculate_station_uptime 2 [1004]
        [⟨1004, 0, 50, true⟩, ⟨1004, 100, 200, true⟩] =
      calculate_station_uptime_noclip 2 [1004]
        [⟨1004, 0, 50, true⟩, ⟨1004, 100, 200, true⟩]) :=
  ⟨by decide,
   calculate_station_uptime_noclip_eq 2 [1004]
     [⟨1004, 0, 50, true⟩, ⟨1004, 100, 200, true⟩] (by decide)⟩

/-- Claim C10: the station_id argument never influences the result of
calculate_station_uptime; it depends only on the charger set and the
report list. -/
theorem calculate_station_uptime_station_id_irrelevant
    (station_id1 station_id2 : Int) (charger_ids : List Int)
    (reports : List Report) :
    calculate_station_uptime station_id1 charger_ids reports =
      calculate_station_uptime station_id2 charger_ids reports := rfl

/-- Claim C4: the Fleet Evaluator emits exactly one (station_id,
percentage) pair per station of the input mapping (stations with empty
charger lists or no reports included), sorted in strictly ascending
station_id order, and the output does not depend on the station iteration
order. -/
theorem evaluate_fleet_spec (stations : List (Int × List Int))
    (reports : List Report)
    (hnd : (stations.map Prod.fst).Nodup) :
    (evaluate_fleet stations reports).length = stations.length ∧
    (∀ s ∈ stations,
      (s.1, calculate_station_uptime s.1 s.2 reports) ∈
        evaluate_fleet stations reports) ∧
    (evaluate_fleet stations reports).Pairwise (fun p q => p.1 < q.1) ∧
    (∀ stations' : List (Int × List Int), List.Perm stations stations' →
      evaluate_fleet stations reports = evaluate_fleet stations' reports) := by
  unfold evaluate_fleet
  have hperm := List.perm_insertionSort pairLe
    (stations.map (fun s => (s.1, calculate_station_uptime s.1 s.2 reports)))
  refine ⟨?_, ?_, ?_, ?_⟩
  · rw [hperm.length_eq, List.length_map]
  · intro s hs
    exact hperm.mem_iff.mpr (List.mem_map_of_mem _ hs)
  · have hsorted := List.sorted_insertionSort pairLe
      (stations.map (fun s => (s.1, calculate_station_uptime s.1 s.2 reports)))
    have hfst : ((List.insertionSort pairLe
        (stations.map (fun s => (s.1, calculate_station_uptime s.1 s.2 reports)))).map
          Prod.fst).Nodup := by
      refine ((hperm.map Prod.fst).nodup_iff).mpr ?_
      rw [List.map_map]
      exact hnd
    have hne : (List.insertionSort pairLe
        (stations.map (fun s => (s.1, calculate_station_uptime s.1 s.2 reports)))).Pairwise
          (fun p q => p.1 ≠ q.1) := by
      unfold List.Nodup at hfst
      rwa [List.pairwise_map] at hfst
    refine (hsorted.and hne).imp ?_
    intro p q hpq
    have h1 := hpq.1
    unfold pairLe at h1
    rcases h1 with h | h
    · exact h
    · exact absurd h.1 hpq.2
  · intro stations' hp
    exact insertionSort_perm_eq (hp.map _)

/-- Witness for C4 at the end-to-end scenario of the specification, with
the reversed iteration order as the permuted input. -/
theorem evaluate_fleet_spec_witness :
    ((([((0 : Int), [(1001 : Int), 1002]), (1, [1003])]).map Prod.fst).Nodup) ∧
    ((evaluate_fleet [((0 : Int), [(1001 : Int), 1002]), (1, [1003])]
        [⟨1001, 0, 100, true⟩, ⟨1002, 50, 150, false⟩,
         ⟨1003, 25, 75, true⟩]).Pairwise (fun p q => p.1 < q.1)) ∧
    evaluate_fleet [((0 : Int), [(1001 : Int), 1002]), (1, [1003])]
        [⟨1001, 0, 100, true⟩, ⟨1002, 50, 150, false⟩, ⟨1003, 25, 75, true⟩] =
      evaluate_fleet [((1 : Int), [(1003 : Int)]), (0, [1001, 1002])]
        [⟨1001, 0, 100, true⟩, ⟨1002, 50, 150, false⟩, ⟨1003, 25, 75, true⟩] ∧
    evaluate_fleet [((0 : Int), [(1001 : Int), 1002]), (1, [1003])]
        [⟨1001, 0, 100, true⟩, ⟨1002, 50, 150, false⟩, ⟨1003, 25, 75, true⟩] =
      [(0, 66), (1, 100)] :=
  ⟨by decide,
   (evaluate_fleet_spec [((0 : Int), [(1001 : Int), 1002]), (1, [1003])]
     [⟨1001, 0, 100, true⟩, ⟨1002, 50, 150, false⟩, ⟨1003, 25, 75, true⟩]
     (by decide)).2.2.1,
   (evaluate_fleet_spec [((0 : Int), [(1001 : Int), 1002]), (1, [1003])]
     [⟨1001, 0, 100, true⟩, ⟨1002, 50, 150, false⟩, ⟨1003, 25, 75, true⟩]
     (by decide)).2.2.2 [((1 : Int), [(1003 : Int)]), (0, [1001, 1002])]
     (by decide),
   by decide⟩

end ChargerUptime
